import Mathlib

/-!
Verification of the query-execution engine and its two-tier, block-aware
result cache (`graphql/src/execution/execution.rs`).

The development shallowly embeds the source file: GraphQL values, the query
AST, field collection, argument coercion, value completion, selection-set
execution, and the block-bounded cache together with the top-level
`execute_root_selection_set` routing logic. External collaborators
(the resolver capability, input/scalar/enum coercion, `@skip`/`@include`
evaluation, the herd cache, and the wall clock) are modelled as parameters,
mirroring the contracts stated in the design document.
-/

set_option maxHeartbeats 1600000

namespace GraphNode

/-- GraphQL values (`graphql_parser::query::Value`). Objects are
`BTreeMap<String, Value>`, modelled as association lists; maps built by the
engine are kept in ascending key order by `btreeInsert`. -/
inductive GValue where
  | null
  | int (n : Int)
  | str (s : String)
  | boolean (b : Bool)
  | enumValue (s : String)
  | list (vs : List GValue)
  | object (fields : List (String × GValue))
deriving Inhabited

/-- GraphQL type syntax (`graphql_parser::schema::Type`). -/
inductive GType where
  | named (name : String)
  | listType (inner : GType)
  | nonNull (inner : GType)
deriving DecidableEq, Inhabited

/-- Execution errors (`QueryExecutionError`), restricted to the variants the
executor in `execution.rs` produces. `argumentError` stands for the opaque
errors surfaced by the external input-coercion collaborator. `outOfFuel` is
a model artifact marking exhaustion of the recursion budget; theorems below
are stated so that it never stands in for a source behavior. -/
inductive QueryExecutionError where
  | unknownField (pos : Nat) (typeName : String) (fieldName : String)
  | emptySelectionSet (typeName : String)
  | nonNullError (pos : Nat) (fieldName : String)
  | listValueError (pos : Nat) (fieldName : String)
  | scalarCoercionError (pos : Nat) (fieldName : String) (value : GValue) (typeName : String)
  | enumCoercionError (pos : Nat) (fieldName : String) (value : GValue) (typeName : String)
      (legal : List String)
  | namedTypeError (typeName : String)
  | abstractTypeError (typeName : String)
  | unimplemented (feature : String)
  | timeout
  | argumentError (msg : String)
  | outOfFuel
deriving Inhabited

/-- `type QueryResponse = Result<BTreeMap<String, q::Value>, Vec<QueryExecutionError>>`. -/
def QueryResponse := Except (List QueryExecutionError) (List (String × GValue))

/-- Lexicographic order on character lists (by code point), the order
`BTreeMap<String, _>` keeps its keys in. -/
def strLtData : List Char → List Char → Bool
  | [], [] => false
  | [], _ :: _ => true
  | _ :: _, [] => false
  | a :: as, b :: bs =>
    if a.toNat < b.toNat then true
    else if b.toNat < a.toNat then false
    else strLtData as bs

/-- Lexicographic string order. -/
def strLt (s t : String) : Bool := strLtData s.data t.data

/-- Sorted-map insertion as done by `BTreeMap<String, _>::insert`: keys are
kept in ascending `strLt` order; an existing binding is replaced. -/
def btreeInsert {α : Type} (k : String) (v : α) :
    List (String × α) → List (String × α)
  | [] => [(k, v)]
  | (k', v') :: rest =>
    if strLt k k' then (k, v) :: (k', v') :: rest
    else if k == k' then (k, v) :: rest
    else (k', v') :: btreeInsert k v rest

/-- Sorted-map insertion as done by `BTreeMap<QueryHash, _>::insert` (the
fingerprint-keyed per-block maps). -/
def btreeInsertNat {α : Type} (k : Nat) (v : α) :
    List (Nat × α) → List (Nat × α)
  | [] => [(k, v)]
  | (k', v') :: rest =>
    if k < k' then (k, v) :: (k', v') :: rest
    else if k == k' then (k, v) :: rest
    else (k', v') :: btreeInsertNat k v rest

/-- Association-list lookup (first binding wins), as `BTreeMap::get` /
`HashMap::get`. -/
def assocLookup {α : Type} : List (String × α) → String → Option α
  | [], _ => none
  | p :: rest, k => if p.1 == k then some p.2 else assocLookup rest k

/-- `BTreeMap::remove`: returns the removed value (if any) and the map with
the first binding for the key removed. -/
def assocRemove {α : Type} (k : String) : List (String × α) → Option α × List (String × α)
  | [] => (none, [])
  | (k', v') :: rest =>
    if k' == k then (some v', rest)
    else
      let (r, rest') := assocRemove k rest
      (r, (k', v') :: rest')

/-! ## The block-bounded cache and `execute_root_selection_set` -/

/-- `EthereumBlockPointer`: block number plus block identity (the hash,
modelled as a number). Totally ordered by `number` for insertion purposes. -/
structure EthereumBlockPointer where
  number : Nat
  hash : Nat
deriving DecidableEq, Inhabited

/-- Modelled from the spec: the reserved "unbounded/latest" sentinel block
number (`BLOCK_NUMBER_MAX` from the `graph` crate, `i32::MAX`); the constant
itself lives outside this source file. Only equality with it matters here. -/
def BLOCK_NUMBER_MAX : Nat := 2147483647

/-- One ring-buffer slot: a block pointer together with the map from query
fingerprint to cached response (`CacheByBlock`). -/
structure CacheByBlock where
  block : EthereumBlockPointer
  cache : List (Nat × QueryResponse)

/-- `MaybeCached<T>`: distinguishes, for observability, a fresh result from
one that went through the cache layer (the `CachedResponse` handle is
modelled as the value it shares). -/
inductive MaybeCached (α : Type) where
  | notCached (value : α)
  | cached (value : α)

/-- `MaybeCached::to_inner`, dropping the cache-handle distinction. -/
def MaybeCached.to_inner {α : Type} : MaybeCached α → α
  | .notCached v => v
  | .cached v => v

/-- Process-wide cache configuration: the allow-list of subgraph ids
(`GRAPH_CACHED_SUBGRAPH_IDS`) and the ring-buffer capacity in blocks
(`GRAPH_QUERY_CACHE_BLOCKS`). -/
structure CacheConfig where
  cachedSubgraphIds : List String
  queryCacheBlocks : Nat

/-- `CACHE_ALL`: a `*` entry in the allow-list enables caching for all
subgraphs. -/
def CacheConfig.cacheAll (cfg : CacheConfig) : Bool :=
  cfg.cachedSubgraphIds.contains "*"

/-- The cache-hit scan: iterate the ring buffer from the front (most recent
block first) for an entry whose block pointer equals the target, then look
the fingerprint up in that entry. -/
def cacheLookup (cache : List CacheByBlock) (block_ptr : EthereumBlockPointer)
    (key : Nat) : Option QueryResponse :=
  match cache.find? (fun c => c.block = block_ptr) with
  | some cache_by_block => (cache_by_block.cache.find? (fun p => p.1 = key)).map (fun p => p.2)
  | none => none

/-- `cache.iter_mut().find(|c| c.block == block_ptr)` followed by an insert:
update the first entry whose block matches, reporting `none` when no entry
matches. -/
def updateBlockEntry (block_ptr : EthereumBlockPointer) (key : Nat)
    (resp : QueryResponse) : List CacheByBlock → Option (List CacheByBlock)
  | [] => none
  | c :: rest =>
    if c.block = block_ptr then
      some ({ c with cache := btreeInsertNat key resp c.cache } :: rest)
    else
      (updateBlockEntry block_ptr key resp rest).map (fun rest' => c :: rest')

/-- Whether a `QueryResponse` is a success (`Result::is_ok`). -/
def QueryResponse.isOk : QueryResponse → Bool
  | .ok _ => true
  | .error _ => false

/-- The insertion step of `execute_root_selection_set` (the body of the
`if cached.is_ok()` block): add the response under an existing entry for
this exact block if one exists; otherwise create a new front entry only if
the buffer is empty or the block's number is at least the most recent
cached block's number, evicting the back entry first when at capacity. -/
def cacheInsertResponse (queryCacheBlocks : Nat) (cache : List CacheByBlock)
    (block_ptr : EthereumBlockPointer) (key : Nat) (cached : QueryResponse) :
    List CacheByBlock :=
  if cached.isOk then
    match updateBlockEntry block_ptr key cached cache with
    | some cache' => cache'
    | none =>
      if queryCacheBlocks > 0 then
        let should_insert :=
          match cache.head? with
          | none => true
          | some highest => highest.block.number ≤ block_ptr.number
        if should_insert then
          let cache₁ := if cache.length = queryCacheBlocks then cache.dropLast else cache
          ⟨block_ptr, [(key, cached)]⟩ :: cache₁
        else cache
      else cache
  else cache

/-- Observable outcome of one `execute_root_selection_set` call: the
returned value, the ring buffer afterwards, and effect flags recording
whether the fingerprint was computed (`cache_key` called), whether the herd
cache was used, and whether the block-bounded cache was read. -/
structure RootOutcome where
  result : MaybeCached QueryResponse
  newCache : List CacheByBlock
  hashComputed : Bool
  herdUsed : Bool
  cacheRead : Bool

/-- `execute_root_selection_set`. The query fingerprint that `cache_key`
would compute is passed in as `hash`; the result of
`execute_root_selection_set_uncached` is passed in as `uncached`. The herd
cache (`QUERY_HERD_CACHE.cached_query`), which lives outside this source
file, is modelled from the spec: sequentially it runs the closure once and
shares the outcome as a cached response. -/
def execute_root_selection_set (cfg : CacheConfig) (schemaId : String)
    (block_ptr : Option EthereumBlockPointer) (hash : Nat)
    (uncached : QueryResponse) (cache : List CacheByBlock) : RootOutcome :=
  if cfg.cacheAll || cfg.cachedSubgraphIds.contains schemaId then
    match block_ptr with
    | some bp =>
      if bp.number ≠ BLOCK_NUMBER_MAX then
        match cacheLookup cache bp hash with
        | some response =>
          { result := .cached response, newCache := cache,
            hashComputed := true, herdUsed := false, cacheRead := true }
        | none =>
          { result := .cached uncached,
            newCache := cacheInsertResponse cfg.queryCacheBlocks cache bp hash uncached,
            hashComputed := true, herdUsed := true, cacheRead := true }
      else
        { result := .notCached uncached, newCache := cache,
          hashComputed := false, herdUsed := false, cacheRead := false }
    | none =>
      { result := .notCached uncached, newCache := cache,
        hashComputed := false, herdUsed := false, cacheRead := false }
  else
    { result := .notCached uncached, newCache := cache,
      hashComputed := false, herdUsed := false, cacheRead := false }

/-! ## Schema and query AST -/

/-- A schema-declared argument (`s::InputValue`); only the name is needed
here, coercion of its type being the external collaborator's job. -/
structure ArgDef where
  name : String
deriving DecidableEq, Inhabited

/-- A schema field definition (`s::Field`): name, declared arguments, and
declared type. -/
structure FieldDef where
  name : String
  args : List ArgDef
  fieldType : GType
deriving DecidableEq, Inhabited

/-- A schema object type (`s::ObjectType`): name, fields, and the names of
the interfaces it declares implementing. -/
structure ObjectType where
  name : String
  fields : List FieldDef
  implements_interfaces : List String
deriving DecidableEq, Inhabited

/-- A schema interface type; its own fields play no role in this file. -/
structure InterfaceType where
  name : String
deriving DecidableEq, Inhabited

/-- A schema union type: name and member object type names. -/
structure UnionType where
  name : String
  types : List String
deriving DecidableEq, Inhabited

/-- A schema scalar type. -/
structure ScalarType where
  name : String
deriving DecidableEq, Inhabited

/-- A schema enum type: name and declared value names. -/
structure EnumType where
  name : String
  values : List String
deriving DecidableEq, Inhabited

/-- A named type definition (`s::TypeDefinition`). -/
inductive TypeDef where
  | object (t : ObjectType)
  | interface (t : InterfaceType)
  | union (t : UnionType)
  | scalar (t : ScalarType)
  | enumDef (t : EnumType)
  | inputObject (name : String)
deriving DecidableEq, Inhabited

/-- `sast::get_type_name`. -/
def TypeDef.typeName : TypeDef → String
  | .object t => t.name
  | .interface t => t.name
  | .union t => t.name
  | .scalar t => t.name
  | .enumDef t => t.name
  | .inputObject n => n

mutual
/-- A query AST selection (`q::Selection`). Directives are not carried on
the node: evaluation of `@skip`/`@include` against the variable bindings is
the external `qast` collaborator, modelled as the `skipSelection` /
`includeSelection` parameters of the environment. -/
inductive Selection where
  | field (f : QField)
  | fragmentSpread (fragment_name : String)
  | inlineFragment (type_condition : Option String) (selection_set : List Selection)

/-- A query AST field (`q::Field`): position, optional alias, name,
arguments, and sub-selection set. -/
inductive QField where
  | mk (position : Nat) (fieldAlias : Option String) (name : String)
    (arguments : List (String × GValue)) (selection_set : List Selection)
end

def QField.position : QField → Nat
  | .mk p _ _ _ _ => p

def QField.fieldAlias : QField → Option String
  | .mk _ a _ _ _ => a

def QField.name : QField → String
  | .mk _ _ n _ _ => n

def QField.arguments : QField → List (String × GValue)
  | .mk _ _ _ a _ => a

def QField.selection_set : QField → List Selection
  | .mk _ _ _ _ s => s

/-- A fragment definition (`q::FragmentDefinition`): its type condition
(always of the `On(name)` shape) and its selection set. -/
structure FragmentDef where
  type_condition : String
  selection_set : List Selection

/-- Modelled from the spec: `qast::get_response_key` (external `query::ast`
module) — the alias if present, else the field name. -/
def QField.responseKey (f : QField) : String :=
  match f.fieldAlias with
  | some a => a
  | none => f.name

/-! ## Execution environment -/

/-- `ObjectOrInterface`, as passed to the resolver. -/
inductive ObjectOrInterface where
  | object (t : ObjectType)
  | interface (t : InterfaceType)
deriving DecidableEq, Inhabited

/-- The resolver capability (external collaborator, §6 of the design):
one operation per named-type category plus list variants and abstract-type
resolution. All operations are opaque parameters. -/
structure Resolver where
  resolve_object : Option GValue → QField → FieldDef → ObjectOrInterface →
    List (String × GValue) → Except QueryExecutionError GValue
  resolve_objects : Option GValue → QField → FieldDef → ObjectOrInterface →
    List (String × GValue) → Except QueryExecutionError GValue
  resolve_enum_value : QField → EnumType → Option GValue →
    Except QueryExecutionError GValue
  resolve_enum_values : QField → EnumType → Option GValue →
    Except (List QueryExecutionError) GValue
  resolve_scalar_value : ObjectType → QField → ScalarType → Option GValue →
    List (String × GValue) → Except QueryExecutionError GValue
  resolve_scalar_values : QField → ScalarType → Option GValue →
    Except (List QueryExecutionError) GValue
  resolve_abstract_type : TypeDef → GValue → Option ObjectType

/-- The immutable per-request surroundings of the recursive executor: the
schema document and fragment definitions of the query, the resolver, and
the external collaborator contracts — `@skip`/`@include` evaluation against
the variable bindings (`qast`), input coercion (`values::coercion`),
scalar/enum completion coercion (`q::Value::coerce`), and the cooperative
deadline check `deadline < Instant::now()`, indexed by the number of field
groups already processed in the current selection set. -/
structure ExecEnv where
  schema : List (String × TypeDef)
  fragments : List (String × FragmentDef)
  resolver : Resolver
  skipSelection : Selection → Bool
  includeSelection : Selection → Bool
  coerceScalar : GValue → ScalarType → Except GValue GValue
  coerceEnum : GValue → EnumType → Except GValue GValue
  coerce_input_value : Option GValue → ArgDef → Except QueryExecutionError (Option GValue)
  deadlinePast : Nat → Bool

/-- `sast::get_named_type`: look a named type up in the schema document. -/
def getNamedType (schema : List (String × TypeDef)) (name : String) : Option TypeDef :=
  assocLookup schema name

/-- `Query::get_fragment`. -/
def ExecEnv.get_fragment (env : ExecEnv) (name : String) : Option FragmentDef :=
  assocLookup env.fragments name

/-- `does_fragment_type_apply`: the condition names an object type (applies
iff identical), an interface (applies iff the object type declares
implementing it), or a union (applies iff the object type is a member);
anything else never applies. -/
def does_fragment_type_apply (env : ExecEnv) (object_type : ObjectType)
    (fragment_type : String) : Bool :=
  match getNamedType env.schema fragment_type with
  | some (.object ot) => object_type == ot
  | some (.interface it) => object_type.implements_interfaces.contains it.name
  | some (.union ut) => ut.types.contains object_type.name
  | _ => false

/-! ## Field collection -/

/-- The order-preserving response-key grouping produced by `collect_fields`
(an `IndexMap<&String, Vec<&Field>>`). -/
abbrev Groups := List (String × List QField)

/-- `IndexMap` entry-append: extend the group under `key` if it exists,
else append a new group at the end (insertion order preserved). -/
def groupsAppend (key : String) (fs : List QField) : Groups → Groups
  | [] => [(key, fs)]
  | g :: rest =>
    if g.1 == key then (g.1, g.2 ++ fs) :: rest
    else g :: groupsAppend key fs rest

/-- Merge a recursively collected grouping into the current one, group by
group in order (the `for (response_key, mut fragment_group)` loops). -/
def mergeGroups (groups : Groups) (sub : Groups) : Groups :=
  sub.foldl (fun acc g => groupsAppend g.1 g.2 acc) groups

/-- The names of the query's fragment definitions. -/
def fragmentNames (env : ExecEnv) : List String :=
  env.fragments.map Prod.fst

/-- How many fragment names are not yet in the visited set: the part of the
termination measure of `collect_fields` that shrinks when a spread is
inlined. -/
def unvisitedFragments (env : ExecEnv) (visited : List String) : Nat :=
  ((fragmentNames env).toFinset \ visited.toFinset).card

theorem assocLookup_some_mem_keys {α : Type} {k : String} {v : α} :
    ∀ {l : List (String × α)}, assocLookup l k = some v → k ∈ l.map Prod.fst
  | [], h => nomatch h
  | p :: rest, h => by
    by_cases hp : p.1 == k
    · exact (by simpa using hp : p.1 = k) ▸ List.mem_map_of_mem Prod.fst (by simp)
    · simp only [assocLookup, hp, Bool.false_eq_true, if_false] at h
      exact List.mem_cons_of_mem _ (assocLookup_some_mem_keys h)

theorem assocLookup_none_not_mem_keys {α : Type} {k : String} :
    ∀ {l : List (String × α)}, assocLookup l k = none → ¬ k ∈ l.map Prod.fst
  | [], _ => by simp
  | p :: rest, h => by
    by_cases hp : p.1 == k
    · simp [assocLookup, hp] at h
    · simp only [assocLookup, hp, Bool.false_eq_true, if_false] at h
      have hne : p.1 ≠ k := by simpa using hp
      simp only [List.map_cons, List.mem_cons]
      rintro (rfl | hmem)
      · exact hne rfl
      · exact assocLookup_none_not_mem_keys h hmem

theorem mem_fragmentNames_of_lookup {env : ExecEnv} {name : String} {frag : FragmentDef}
    (h : assocLookup env.fragments name = some frag) : name ∈ fragmentNames env :=
  assocLookup_some_mem_keys h

theorem unvisitedFragments_lt {env : ExecEnv} {name : String} {visited : List String}
    (hmem : name ∈ fragmentNames env) (hnv : ¬ name ∈ visited) :
    unvisitedFragments env (name :: visited) < unvisitedFragments env visited := by
  unfold unvisitedFragments
  have h1 : (name :: visited).toFinset = insert name visited.toFinset := by
    simp [List.toFinset_cons]
  rw [h1, Finset.sdiff_insert]
  have hmem' : name ∈ (fragmentNames env).toFinset \ visited.toFinset := by
    simp [List.mem_toFinset, hmem, hnv]
  calc (((fragmentNames env).toFinset \ visited.toFinset).erase name).card
      < ((fragmentNames env).toFinset \ visited.toFinset).card :=
        Finset.card_erase_lt_of_mem hmem'

theorem unvisitedFragments_cons_of_lookup_none {env : ExecEnv} {name : String}
    (visited : List String) (h : assocLookup env.fragments name = none) :
    unvisitedFragments env (name :: visited) = unvisitedFragments env visited := by
  have hnm : ¬ name ∈ fragmentNames env := assocLookup_none_not_mem_keys h
  unfold unvisitedFragments
  have h1 : (name :: visited).toFinset = insert name visited.toFinset := by
    simp [List.toFinset_cons]
  rw [h1, Finset.sdiff_insert, Finset.erase_eq_of_not_mem]
  simp [List.mem_toFinset, hnm]

/-- `collect_fields`, threading the visited-fragment set and the grouped
fields through the selections of the (flattened) input selection sets. A
fragment spread is inlined only if its name is not yet visited and its type
condition applies; an inline fragment under the same applicability test
(unconditionally when it has no condition). Recursive collection starts a
fresh grouping from a clone of the visited set, so inner visits do not leak
back into the current branch. -/
def collect_fields_go (env : ExecEnv) (object_type : ObjectType) :
    List String → Groups → List Selection → Groups
  | _, groups, [] => groups
  | visited_fragments, groups, selection :: rest =>
    if env.skipSelection selection || !env.includeSelection selection then
      collect_fields_go env object_type visited_fragments groups rest
    else
      match selection with
      | .field f =>
        collect_fields_go env object_type visited_fragments
          (groupsAppend f.responseKey [f] groups) rest
      | .fragmentSpread name =>
        if h : visited_fragments.contains name then
          collect_fields_go env object_type visited_fragments groups rest
        else
          match hl : assocLookup env.fragments name with
          | none =>
            collect_fields_go env object_type (name :: visited_fragments) groups rest
          | some fragment =>
            if does_fragment_type_apply env object_type fragment.type_condition then
              let sub := collect_fields_go env object_type (name :: visited_fragments)
                [] fragment.selection_set
              collect_fields_go env object_type (name :: visited_fragments)
                (mergeGroups groups sub) rest
            else
              collect_fields_go env object_type (name :: visited_fragments) groups rest
      | .inlineFragment type_condition selection_set =>
        let applies :=
          match type_condition with
          | some cond => does_fragment_type_apply env object_type cond
          | none => true
        if applies then
          let sub := collect_fields_go env object_type visited_fragments [] selection_set
          collect_fields_go env object_type visited_fragments (mergeGroups groups sub) rest
        else
          collect_fields_go env object_type visited_fragments groups rest
termination_by visited groups sels => (unvisitedFragments env visited, sizeOf sels)
decreasing_by
  all_goals simp_wf
  all_goals first
    | exact Prod.Lex.right _ (by omega)
    | exact Prod.Lex.left _ _
        (unvisitedFragments_lt (mem_fragmentNames_of_lookup (by assumption))
          (fun hm => h (List.elem_eq_true_of_mem hm)))
    | (rw [unvisitedFragments_cons_of_lookup_none _ (by assumption)]
       exact Prod.Lex.right _ (by omega))

/-- `collect_fields` proper: fresh grouping, optionally seeded visited set
(`None` at each new selection-set execution). -/
def collect_fields (env : ExecEnv) (object_type : ObjectType)
    (selection_sets : List Selection) (visited_fragments : Option (List String)) : Groups :=
  collect_fields_go env object_type (visited_fragments.getD []) [] selection_sets

/-! ## Argument coercion -/

/-- `sast::get_field` on an object type: field definition lookup by name. -/
def getFieldDef (object_type : ObjectType) (name : String) : Option FieldDef :=
  object_type.fields.find? (fun fd => fd.name == name)

/-- Modelled from the spec: `qast::get_argument_value` (external
`query::ast` module) — the AST argument value with the given name. -/
def get_argument_value (arguments : List (String × GValue)) (name : String) :
    Option GValue :=
  assocLookup arguments name

/-- `HashMap::insert`: replace an existing binding, else add one. -/
def hashInsert {α : Type} : List (String × α) → String → α → List (String × α)
  | [], k, v => [(k, v)]
  | p :: rest, k, v =>
    if p.1 == k then (k, v) :: rest else p :: hashInsert rest k v

/-- One iteration of the `coerce_argument_values` loop, over one declared
argument: resolve its literal-or-variable value, delegate to the external
input coercer, omit absent values, wrap an argument literally named `text`
into a single-key object keyed by the field's own name, and accumulate any
error. -/
def coerceArgStep (env : ExecEnv) (field : QField)
    (acc : List (String × GValue) × List QueryExecutionError)
    (argument_def : ArgDef) :
    List (String × GValue) × List QueryExecutionError :=
  let value := get_argument_value field.arguments argument_def.name
  match env.coerce_input_value value argument_def with
  | .ok (some value) =>
    if argument_def.name == "text" then
      (hashInsert acc.1 argument_def.name (.object [(field.name, value)]), acc.2)
    else
      (hashInsert acc.1 argument_def.name value, acc.2)
  | .ok none => acc
  | .error e => (acc.1, acc.2 ++ [e])

/-- `coerce_argument_values`: walk the field's schema-declared argument
definitions, delegate each literal-or-variable value to the external input
coercer, omit absent results, wrap an argument literally named `text` into
a single-key object keyed by the field's own name, and fail with all
accumulated errors iff at least one argument failed. -/
def coerce_argument_values (env : ExecEnv) (object_type : ObjectType) (field : QField) :
    Except (List QueryExecutionError) (List (String × GValue)) :=
  let argument_definitions :=
    match getFieldDef object_type field.name with
    | some fd => fd.args
    | none => []
  let result := argument_definitions.foldl (coerceArgStep env field) ([], [])
  if result.2.isEmpty then .ok result.1 else .error result.2

/-! ## Field value resolution -/

/-- `resolve_field_value_for_named_type`: dispatch on the looked-up named
type; unions as a field's direct type are unimplemented; input objects are
never resolved (the source panics there, modelled as an error). -/
def resolve_field_value_for_named_type (env : ExecEnv) (object_type : ObjectType)
    (field_value : Option GValue) (field : QField) (field_definition : FieldDef)
    (type_name : String) (argument_values : List (String × GValue)) :
    Except (List QueryExecutionError) GValue :=
  match getNamedType env.schema type_name with
  | none => .error [.namedTypeError type_name]
  | some named_type =>
    (match named_type with
     | .object t =>
       env.resolver.resolve_object field_value field field_definition (.object t)
         argument_values
     | .enumDef t => env.resolver.resolve_enum_value field t field_value
     | .scalar t =>
       env.resolver.resolve_scalar_value object_type field t field_value argument_values
     | .interface i =>
       env.resolver.resolve_object field_value field field_definition (.interface i)
         argument_values
     | .union _ => .error (.unimplemented "unions")
     | .inputObject _ => .error (.unimplemented "input objects are never resolved")
    ).mapError (fun e => [e])

/-- `resolve_field_value_for_list_type`: unwrap inner non-nulls, dispatch
named element types to the resolver's list operations; nested lists are
unimplemented. -/
def resolve_field_value_for_list_type (env : ExecEnv) (object_type : ObjectType)
    (field_value : Option GValue) (field : QField) (field_definition : FieldDef)
    (inner_type : GType) (argument_values : List (String × GValue)) :
    Except (List QueryExecutionError) GValue :=
  match inner_type with
  | .nonNull inner =>
    resolve_field_value_for_list_type env object_type field_value field
      field_definition inner argument_values
  | .named type_name =>
    match getNamedType env.schema type_name with
    | none => .error [.namedTypeError type_name]
    | some named_type =>
      match named_type with
      | .object t =>
        (env.resolver.resolve_objects field_value field field_definition (.object t)
          argument_values).mapError (fun e => [e])
      | .enumDef t => env.resolver.resolve_enum_values field t field_value
      | .scalar t => env.resolver.resolve_scalar_values field t field_value
      | .interface t =>
        (env.resolver.resolve_objects field_value field field_definition (.interface t)
          argument_values).mapError (fun e => [e])
      | .union _ => .error [.unimplemented "unions"]
      | .inputObject _ => .error [.unimplemented "input objects are never resolved"]
  | .listType _ => .error [.unimplemented "nested list types"]

/-- `resolve_field_value`: recurse through the declared type's wrappers. -/
def resolve_field_value (env : ExecEnv) (object_type : ObjectType)
    (field_value : Option GValue) (field : QField) (field_definition : FieldDef)
    (field_type : GType) (argument_values : List (String × GValue)) :
    Except (List QueryExecutionError) GValue :=
  match field_type with
  | .nonNull inner_type =>
    resolve_field_value env object_type field_value field field_definition
      inner_type argument_values
  | .named name =>
    resolve_field_value_for_named_type env object_type field_value field
      field_definition name argument_values
  | .listType inner_type =>
    resolve_field_value_for_list_type env object_type field_value field
      field_definition inner_type argument_values

/-! ## Value completion -/

/-- The recursive payload re-entered by value completion: full
selection-set execution against a concrete object type (`execute_selection_set`),
abstracted so that completion is structurally recursive on the type. -/
abbrev ExecSS := List Selection → ObjectType → Option GValue →
  Except (List QueryExecutionError) GValue

/-- `resolve_abstract_type`: let the resolver pick the concrete object
type; failure yields an `AbstractTypeError` naming the abstract type. -/
def resolve_abstract_type_def (env : ExecEnv) (abstract_type : TypeDef)
    (object_value : GValue) : Except (List QueryExecutionError) ObjectType :=
  match env.resolver.resolve_abstract_type abstract_type object_value with
  | some t => .ok t
  | none => .error [.abstractTypeError abstract_type.typeName]

/-- `complete_value`: ensure a resolved value matches the declared type.
Non-null wrappers complete the inner type first and fail with a
`NonNullError` if it completes to null; a null value short-circuits for
any other type; lists complete element-wise, accumulating element errors;
named scalars/enums delegate to coercion; named object types recurse into
selection-set execution; interfaces and unions first resolve the concrete
type. (At the `unwrap` of the named-type lookup and for input objects the
source panics; both are modelled as errors.) -/
def complete_value (env : ExecEnv) (execSS : ExecSS) (field : QField)
    (fields : List QField) : GType → GValue → Except (List QueryExecutionError) GValue
  | .nonNull inner_type, resolved_value =>
    match complete_value env execSS field fields inner_type resolved_value with
    | .error errs => .error errs
    | .ok .null => .error [.nonNullError field.position field.name]
    | .ok v => .ok v
  | .listType inner_type, resolved_value =>
    match resolved_value with
    | .null => .ok .null
    | .list values =>
      let completed := values.map fun v =>
        complete_value env execSS field fields inner_type v
      let errors := completed.foldl
        (fun acc r => match r with | .error errs => acc ++ errs | .ok _ => acc) []
      if errors.isEmpty then
        .ok (.list (completed.map fun r =>
          match r with | .ok v => v | .error _ => .null))
      else .error errors
    | _ => .error [.listValueError field.position field.name]
  | .named name, resolved_value =>
    match resolved_value with
    | .null => .ok .null
    | resolved_value =>
      match getNamedType env.schema name with
      | none => .error [.namedTypeError name]
      | some (.scalar scalar_type) =>
        match env.coerceScalar resolved_value scalar_type with
        | .ok v => .ok v
        | .error value =>
          .error [.scalarCoercionError field.position field.name value scalar_type.name]
      | some (.enumDef enum_type) =>
        match env.coerceEnum resolved_value enum_type with
        | .ok v => .ok v
        | .error value =>
          .error [.enumCoercionError field.position field.name value enum_type.name
            enum_type.values]
      | some (.object object_type) =>
        execSS ((fields.map fun f => f.selection_set).flatten) object_type
          (some resolved_value)
      | some (.interface it) =>
        match resolve_abstract_type_def env (.interface it) resolved_value with
        | .error errs => .error errs
        | .ok object_type =>
          execSS ((fields.map fun f => f.selection_set).flatten) object_type
            (some resolved_value)
      | some (.union ut) =>
        match resolve_abstract_type_def env (.union ut) resolved_value with
        | .error errs => .error errs
        | .ok object_type =>
          execSS ((fields.map fun f => f.selection_set).flatten) object_type
            (some resolved_value)
      | some (.inputObject _) =>
        .error [.unimplemented "input objects are never resolved"]

/-- `execute_field`: coerce arguments, resolve through the resolver, then
complete against the declared type. -/
def execute_field (env : ExecEnv) (execSS : ExecSS) (object_type : ObjectType)
    (field_value : Option GValue) (field : QField) (field_definition : FieldDef)
    (fields : List QField) : Except (List QueryExecutionError) GValue :=
  match coerce_argument_values env object_type field with
  | .error errs => .error errs
  | .ok argument_values =>
    match resolve_field_value env object_type field_value field field_definition
        field_definition.fieldType argument_values with
    | .error errs => .error errs
    | .ok value =>
      complete_value env execSS field fields field_definition.fieldType value

/-! ## Selection-set execution -/

/-- The field names that appear under more than one response key of the
grouped field set (`multiple_response_keys`): for those, the pre-fetched
entry is cloned rather than consumed. -/
def multipleResponseKeys (grouped_field_set : Groups) (name : String) : Bool :=
  decide (2 ≤ (((grouped_field_set.map fun g => g.2).flatten.map QField.name).count name))

/-- The pre-fetched-value extraction for one field group: prefer the entry
namespaced `prefetch:` + response key (consumed); otherwise, for the
field's underlying name, consume the entry when no other response key
shares that field name, or clone it non-destructively when several do. -/
def extractFieldValue (prefetched_object : Option (List (String × GValue)))
    (response_key : String) (field_name : String) (mrk : String → Bool) :
    Option GValue × Option (List (String × GValue)) :=
  match prefetched_object with
  | none => (none, none)
  | some o =>
    match assocRemove ("prefetch:" ++ response_key) o with
    | (some val, o') => (some val, some o')
    | (none, _) =>
      if mrk field_name then (assocLookup o field_name, some o)
      else
        let r := assocRemove field_name o
        (r.1, some r.2)

/-- One iteration of the field-group loop of
`execute_selection_set_to_map` (everything after the deadline check):
look the field up on the object type (unknown fields error and skip the
group), extract any pre-fetched value, execute the field, and either
insert the value under the response key or append the errors. -/
def processGroup (env : ExecEnv) (execSS : ExecSS) (object_type : ObjectType)
    (mrk : String → Bool) (prefetched_object : Option (List (String × GValue)))
    (errors : List QueryExecutionError) (result_map : List (String × GValue))
    (response_key : String) (fields : List QField) :
    Option (List (String × GValue)) × List QueryExecutionError × List (String × GValue) :=
  match fields with
  | [] => (prefetched_object, errors, result_map)
  | f0 :: _ =>
    match getFieldDef object_type f0.name with
    | none =>
      (prefetched_object,
        errors ++ [.unknownField f0.position object_type.name f0.name], result_map)
    | some field =>
      match execute_field env execSS object_type
          (extractFieldValue prefetched_object response_key f0.name mrk).1
          f0 field fields with
      | .ok v =>
        ((extractFieldValue prefetched_object response_key f0.name mrk).2,
          errors, btreeInsert response_key v result_map)
      | .error errs =>
        ((extractFieldValue prefetched_object response_key f0.name mrk).2,
          errors ++ errs, result_map)

/-- The field-group loop: before each group the cooperative deadline is
checked (the check index counts groups already processed); if past, a
`Timeout` error is recorded and the remaining groups are not executed. -/
def processGroups (env : ExecEnv) (execSS : ExecSS) (object_type : ObjectType)
    (mrk : String → Bool) :
    Option (List (String × GValue)) → Nat → List QueryExecutionError →
    List (String × GValue) → Groups →
    List QueryExecutionError × List (String × GValue)
  | _, _, errors, result_map, [] => (errors, result_map)
  | prefetched_object, i, errors, result_map, (response_key, fields) :: rest =>
    if env.deadlinePast i then (errors ++ [.timeout], result_map)
    else
      let step := processGroup env execSS object_type mrk prefetched_object errors
        result_map response_key fields
      processGroups env execSS object_type mrk step.1 (i + 1) step.2.1 step.2.2 rest

/-- The tail of `execute_selection_set_to_map` (lines 451–460): succeed
iff no errors accumulated and at least one field was produced; with no
errors but an empty map, synthesize a single `EmptySelectionSet` error. -/
def finishSelectionSet (type_name : String) (errors : List QueryExecutionError)
    (result_map : List (String × GValue)) : QueryResponse :=
  if errors.isEmpty && !result_map.isEmpty then .ok result_map
  else if errors.isEmpty then .error [.emptySelectionSet type_name]
  else .error errors

/-- `execute_selection_set_to_map`, parametric in the recursive payload:
unpack the pre-fetched value (the source panics on a non-object value;
modelled as an error), group the fields, compute the shared-field-name
set, run the group loop, and finish. -/
def execute_selection_set_to_map_aux (env : ExecEnv) (execSS : ExecSS)
    (selection_sets : List Selection) (object_type : ObjectType)
    (prefetched_value : Option GValue) : QueryResponse :=
  match prefetched_value with
  | some (.object object) => runGroupLoop env execSS selection_sets object_type (some object)
  | some _ => .error [.unimplemented "prefetched value must be an object"]
  | none => runGroupLoop env execSS selection_sets object_type none
where
  runGroupLoop (env : ExecEnv) (execSS : ExecSS) (selection_sets : List Selection)
      (object_type : ObjectType) (prefetched_object : Option (List (String × GValue))) :
      QueryResponse :=
    let grouped_field_set := collect_fields env object_type selection_sets none
    let result := processGroups env execSS object_type
      (multipleResponseKeys grouped_field_set) prefetched_object 0 [] [] grouped_field_set
    finishSelectionSet object_type.name result.1 result.2

/-- The fuel-indexed tie of the recursive knot: at each nesting level of
object completion the budget shrinks by one; an exhausted budget is the
model artifact `outOfFuel` (the source recursion is bounded only by the
data returned by the resolver). -/
def execute_selection_set_to_map :
    Nat → ExecEnv → List Selection → ObjectType → Option GValue → QueryResponse
  | 0, _, _, _, _ => .error [.outOfFuel]
  | fuel + 1, env, selection_sets, object_type, prefetched_value =>
    execute_selection_set_to_map_aux env
      (fun sels ot pv =>
        (execute_selection_set_to_map fuel env sels ot pv).map GValue.object)
      selection_sets object_type prefetched_value

/-- `execute_selection_set`: the object-wrapping form used during value
completion. -/
def execute_selection_set (fuel : Nat) (env : ExecEnv)
    (selection_sets : List Selection) (object_type : ObjectType)
    (prefetched_value : Option GValue) : Except (List QueryExecutionError) GValue :=
  (execute_selection_set_to_map fuel env selection_sets object_type prefetched_value).map
    GValue.object

/-! ## Concrete fixtures used by witnesses and counterexamples -/

/-- A resolver whose scalar operation returns the pre-fetched value; the
other operations are inert. Used only for concrete scenarios. -/
def fixtureResolver : Resolver where
  resolve_object := fun _ _ _ _ _ => .ok .null
  resolve_objects := fun _ _ _ _ _ => .ok .null
  resolve_enum_value := fun _ _ _ => .ok .null
  resolve_enum_values := fun _ _ _ => .ok .null
  resolve_scalar_value := fun _ _ _ v _ => .ok (v.getD .null)
  resolve_scalar_values := fun _ _ _ => .ok .null
  resolve_abstract_type := fun _ _ => none

/-- A fragment on `T` that spreads itself. -/
def fragX : FragmentDef :=
  { type_condition := "T"
    selection_set := [.field (.mk 1 none "x" [] []), .fragmentSpread "F"] }

/-- Object type `T` with a single scalar field `x`. -/
def otT : ObjectType :=
  { name := "T"
    fields := [{ name := "x", args := [], fieldType := .named "S" }]
    implements_interfaces := [] }

/-- Environment with the self-spreading fragment `F`. -/
def envT : ExecEnv where
  schema := [("T", .object otT), ("S", .scalar ⟨"S"⟩)]
  fragments := [("F", fragX)]
  resolver := fixtureResolver
  skipSelection := fun _ => false
  includeSelection := fun _ => true
  coerceScalar := fun v _ => .ok v
  coerceEnum := fun v _ => .ok v
  coerce_input_value := fun _ _ => .ok none
  deadlinePast := fun _ => false

/-- Object type `Q` with scalar fields `b` and `a` (declared in that
order). -/
def otQ : ObjectType :=
  { name := "Q"
    fields := [{ name := "b", args := [], fieldType := .named "S" },
               { name := "a", args := [], fieldType := .named "S" }]
    implements_interfaces := [] }

/-- Environment for queries against `Q`. -/
def envQ : ExecEnv := { envT with schema := [("Q", .object otQ), ("S", .scalar ⟨"S"⟩)] }

/-- Query field `b` (collected first). -/
def fb : QField := .mk 1 none "b" [] []

/-- Query field `a` (collected second). -/
def fa : QField := .mk 2 none "a" [] []

/-! ## C1–C3, C10: the caching layer -/

theorem updateBlockEntry_eq_none {bp : EthereumBlockPointer} {key : Nat}
    {resp : QueryResponse} :
    ∀ cache : List CacheByBlock, (∀ c ∈ cache, c.block ≠ bp) →
      updateBlockEntry bp key resp cache = none
  | [], _ => rfl
  | c :: rest, h => by
    unfold updateBlockEntry
    rw [if_neg (h c (by simp)), updateBlockEntry_eq_none rest
      (fun c' hc' => h c' (by simp [hc']))]
    rfl

/-- C1: a successful insertion with no entry for the exact block creates a
new block entry only if the ring buffer is empty or the block's number is
at least the most recent cached block's number; creation at capacity
evicts the oldest (back) entry first; and the 5,6,7 / 4 scenario against a
capacity-2 cache leaves exactly blocks 7 and 6 (newest first), the later
block-4 insertion changing nothing. -/
theorem cache_insert_monotonic_eviction :
    (∀ (qcb : Nat) (cache : List CacheByBlock) (bp : EthereumBlockPointer)
        (key : Nat) (resp : QueryResponse),
      resp.isOk = true →
      (∀ c ∈ cache, c.block ≠ bp) →
      (∃ c ∈ cacheInsertResponse qcb cache bp key resp, c.block = bp) →
      cache = [] ∨ ∃ h t, cache = h :: t ∧ h.block.number ≤ bp.number) ∧
    (∀ (qcb : Nat) (cache : List CacheByBlock) (bp : EthereumBlockPointer)
        (key : Nat) (resp : QueryResponse),
      resp.isOk = true →
      (∀ c ∈ cache, c.block ≠ bp) →
      0 < qcb →
      (∀ h, cache.head? = some h → h.block.number ≤ bp.number) →
      cache.length = qcb →
      cacheInsertResponse qcb cache bp key resp
        = ⟨bp, [(key, resp)]⟩ :: cache.dropLast) ∧
    ((execute_root_selection_set ⟨["*"], 2⟩ "s" (some ⟨7, 7⟩) 3 (.ok [])
        (execute_root_selection_set ⟨["*"], 2⟩ "s" (some ⟨6, 6⟩) 2 (.ok [])
          (execute_root_selection_set ⟨["*"], 2⟩ "s" (some ⟨5, 5⟩) 1 (.ok [])
            []).newCache).newCache).newCache
        = [⟨⟨7, 7⟩, [(3, .ok [])]⟩, ⟨⟨6, 6⟩, [(2, .ok [])]⟩] ∧
      (execute_root_selection_set ⟨["*"], 2⟩ "s" (some ⟨4, 4⟩) 4 (.ok [])
        [⟨⟨7, 7⟩, [(3, .ok [])]⟩, ⟨⟨6, 6⟩, [(2, .ok [])]⟩]).newCache
        = [⟨⟨7, 7⟩, [(3, .ok [])]⟩, ⟨⟨6, 6⟩, [(2, .ok [])]⟩]) := by
  refine ⟨?_, ?_, by constructor <;> rfl⟩
  · intro qcb cache bp key resp hok hnone hcreated
    unfold cacheInsertResponse at hcreated
    rw [hok, if_pos rfl, updateBlockEntry_eq_none cache hnone] at hcreated
    by_cases hq : qcb > 0
    · rw [if_pos hq] at hcreated
      cases hc : cache.head? with
      | none =>
        left
        cases cache with
        | nil => rfl
        | cons c rest => simp at hc
      | some highest =>
        rw [hc] at hcreated
        by_cases hnum : highest.block.number ≤ bp.number
        · right
          cases cache with
          | nil => simp at hc
          | cons c rest =>
            refine ⟨c, rest, rfl, ?_⟩
            simp at hc
            rw [hc]
            exact hnum
        · simp only [hnum, if_neg, decide_eq_true_eq] at hcreated
          rcases hcreated with ⟨c, hcmem, hcblock⟩
          exact absurd hcblock (hnone c hcmem)
    · rw [if_neg hq] at hcreated
      rcases hcreated with ⟨c, hcmem, hcblock⟩
      exact absurd hcblock (hnone c hcmem)
  · intro qcb cache bp key resp hok hnone hq hmono hlen
    unfold cacheInsertResponse
    rw [hok, if_pos rfl, updateBlockEntry_eq_none cache hnone, if_pos hq]
    have hsi : (match cache.head? with
        | none => true
        | some highest => decide (highest.block.number ≤ bp.number)) = true := by
      cases hc : cache.head? with
      | none => rfl
      | some highest => simpa using hmono highest hc
    rw [hsi, if_pos rfl, if_pos hlen]

/-- C1 witness: conjunct one applied to a concrete non-empty cache where a
block-7 entry is indeed created on top of a block-6 entry. -/
theorem cache_insert_monotonic_eviction_witness :
    ([⟨⟨6, 6⟩, []⟩] : List CacheByBlock) = [] ∨
      ∃ h t, ([⟨⟨6, 6⟩, []⟩] : List CacheByBlock) = h :: t ∧
        h.block.number ≤ (⟨7, 7⟩ : EthereumBlockPointer).number :=
  cache_insert_monotonic_eviction.1 2 [⟨⟨6, 6⟩, []⟩] ⟨7, 7⟩ 1 (.ok [])
    (by rfl) (by decide)
    ⟨⟨⟨7, 7⟩, [(1, .ok [])]⟩,
      by rw [(rfl : cacheInsertResponse 2 [⟨⟨6, 6⟩, []⟩] ⟨7, 7⟩ 1 (.ok [])
          = [⟨⟨7, 7⟩, [(1, .ok [])]⟩, ⟨⟨6, 6⟩, []⟩])]
         exact List.mem_cons_self _ _,
      rfl⟩

/-- C2: when the shared result is an error list, the block-bounded cache is
left unchanged on every path, even though on the herd-cache path that very
error result is what is returned to the caller. -/
theorem errors_not_cached :
    ∀ (cfg : CacheConfig) (schemaId : String) (bp : Option EthereumBlockPointer)
      (hash : Nat) (errs : List QueryExecutionError) (cache : List CacheByBlock),
      (execute_root_selection_set cfg schemaId bp hash (.error errs) cache).newCache
          = cache ∧
      ((execute_root_selection_set cfg schemaId bp hash (.error errs) cache).herdUsed
            = true →
        (execute_root_selection_set cfg schemaId bp hash (.error errs) cache).result
          = .cached (.error errs)) := by
  intro cfg schemaId bp hash errs cache
  unfold execute_root_selection_set
  split
  · split
    · split
      · split
        · exact ⟨rfl, fun h => nomatch h⟩
        · refine ⟨?_, fun _ => rfl⟩
          unfold cacheInsertResponse
          rfl
      · exact ⟨rfl, fun h => nomatch h⟩
    · exact ⟨rfl, fun h => nomatch h⟩
  · exact ⟨rfl, fun h => nomatch h⟩

/-- C2 witness: a concrete herd-cache miss with an error result: the cache
stays empty and the error is the returned (shared) response. -/
theorem errors_not_cached_witness :
    (execute_root_selection_set ⟨["*"], 2⟩ "s" (some ⟨1, 1⟩) 1
        (.error [.timeout]) []).newCache = [] ∧
    (execute_root_selection_set ⟨["*"], 2⟩ "s" (some ⟨1, 1⟩) 1
        (.error [.timeout]) []).result = .cached (.error [.timeout]) :=
  ⟨(errors_not_cached ⟨["*"], 2⟩ "s" (some ⟨1, 1⟩) 1 [.timeout] []).1,
   (errors_not_cached ⟨["*"], 2⟩ "s" (some ⟨1, 1⟩) 1 [.timeout] []).2 (by rfl)⟩

/-- C3: with caching disabled for the schema identity (and no wildcard),
with no block pointer, or with the `BLOCK_NUMBER_MAX` sentinel, the call
returns the uncached result and performs no block-bounded cache lookup or
insertion. -/
theorem uncached_path_no_cache_interaction :
    ∀ (cfg : CacheConfig) (schemaId : String) (bp : Option EthereumBlockPointer)
      (hash : Nat) (uncached : QueryResponse) (cache : List CacheByBlock),
      ((cfg.cacheAll || cfg.cachedSubgraphIds.contains schemaId) = false ∨
        bp = none ∨ (∃ p, bp = some p ∧ p.number = BLOCK_NUMBER_MAX)) →
      (execute_root_selection_set cfg schemaId bp hash uncached cache).result
          = .notCached uncached ∧
      (execute_root_selection_set cfg schemaId bp hash uncached cache).newCache
          = cache ∧
      (execute_root_selection_set cfg schemaId bp hash uncached cache).cacheRead
          = false := by
  intro cfg schemaId bp hash uncached cache h
  unfold execute_root_selection_set
  rcases h with h | h | ⟨p, hp, hmax⟩
  · obtain ⟨h1, h2⟩ := Bool.or_eq_false_iff.mp h
    have h3 : ¬ schemaId ∈ cfg.cachedSubgraphIds := fun hm =>
      Bool.noConfusion ((List.elem_eq_true_of_mem hm).symm.trans h2)
    simp [h1, h3]
  · subst h
    split
    · exact ⟨rfl, rfl, rfl⟩
    · exact ⟨rfl, rfl, rfl⟩
  · subst hp
    split
    · simp [hmax]
    · exact ⟨rfl, rfl, rfl⟩

/-- C3 witness: a schema identity outside the allow-list at a real block:
the uncached result is returned and the cache is untouched. -/
theorem uncached_path_no_cache_interaction_witness :
    (execute_root_selection_set ⟨["other"], 2⟩ "s" (some ⟨1, 1⟩) 1
        (.ok [("x", .str "1")]) []).result = .notCached (.ok [("x", .str "1")]) ∧
    (execute_root_selection_set ⟨["other"], 2⟩ "s" (some ⟨1, 1⟩) 1
        (.ok [("x", .str "1")]) []).newCache = [] ∧
    (execute_root_selection_set ⟨["other"], 2⟩ "s" (some ⟨1, 1⟩) 1
        (.ok [("x", .str "1")]) []).cacheRead = false :=
  uncached_path_no_cache_interaction ⟨["other"], 2⟩ "s" (some ⟨1, 1⟩) 1
    (.ok [("x", .str "1")]) [] (Or.inl (by decide))

/-- C10: on the uncached path the result is `NotCached` and neither cache
is touched at all — no fingerprint is computed, the herd cache is
bypassed, and the block-bounded cache is neither read nor written. -/
theorem uncached_path_frame :
    ∀ (cfg : CacheConfig) (schemaId : String) (bp : Option EthereumBlockPointer)
      (hash : Nat) (uncached : QueryResponse) (cache : List CacheByBlock),
      ((cfg.cacheAll || cfg.cachedSubgraphIds.contains schemaId) = false ∨
        bp = none ∨ (∃ p, bp = some p ∧ p.number = BLOCK_NUMBER_MAX)) →
      (execute_root_selection_set cfg schemaId bp hash uncached cache).result
          = .notCached uncached ∧
      (execute_root_selection_set cfg schemaId bp hash uncached cache).hashComputed
          = false ∧
      (execute_root_selection_set cfg schemaId bp hash uncached cache).herdUsed
          = false ∧
      (execute_root_selection_set cfg schemaId bp hash uncached cache).cacheRead
          = false ∧
      (execute_root_selection_set cfg schemaId bp hash uncached cache).newCache
          = cache := by
  intro cfg schemaId bp hash uncached cache h
  unfold execute_root_selection_set
  rcases h with h | h | ⟨p, hp, hmax⟩
  · obtain ⟨h1, h2⟩ := Bool.or_eq_false_iff.mp h
    have h3 : ¬ schemaId ∈ cfg.cachedSubgraphIds := fun hm =>
      Bool.noConfusion ((List.elem_eq_true_of_mem hm).symm.trans h2)
    simp [h1, h3]
  · subst h
    split
    · exact ⟨rfl, rfl, rfl, rfl, rfl⟩
    · exact ⟨rfl, rfl, rfl, rfl, rfl⟩
  · subst hp
    split
    · simp [hmax]
    · exact ⟨rfl, rfl, rfl, rfl, rfl⟩

/-- C10 witness: at the sentinel block number the request is fully
uncached: no hash, no herd, no read, no write. -/
theorem uncached_path_frame_witness :
    (execute_root_selection_set ⟨["*"], 2⟩ "s" (some ⟨BLOCK_NUMBER_MAX, 9⟩) 1
        (.ok []) []).result = .notCached (.ok []) ∧
    (execute_root_selection_set ⟨["*"], 2⟩ "s" (some ⟨BLOCK_NUMBER_MAX, 9⟩) 1
        (.ok []) []).hashComputed = false ∧
    (execute_root_selection_set ⟨["*"], 2⟩ "s" (some ⟨BLOCK_NUMBER_MAX, 9⟩) 1
        (.ok []) []).herdUsed = false ∧
    (execute_root_selection_set ⟨["*"], 2⟩ "s" (some ⟨BLOCK_NUMBER_MAX, 9⟩) 1
        (.ok []) []).cacheRead = false ∧
    (execute_root_selection_set ⟨["*"], 2⟩ "s" (some ⟨BLOCK_NUMBER_MAX, 9⟩) 1
        (.ok []) []).newCache = [] :=
  uncached_path_frame ⟨["*"], 2⟩ "s" (some ⟨BLOCK_NUMBER_MAX, 9⟩) 1 (.ok []) []
    (Or.inr (Or.inr ⟨⟨BLOCK_NUMBER_MAX, 9⟩, rfl, rfl⟩))

/-! ## C9: argument coercion -/

/-- The external coercion outcome for one declared argument. -/
def argOutcome (env : ExecEnv) (field : QField) (d : ArgDef) :
    Except QueryExecutionError (Option GValue) :=
  env.coerce_input_value (get_argument_value field.arguments d.name) d

/-- The error produced for one declared argument, if any. -/
def argErrOf (env : ExecEnv) (field : QField) (d : ArgDef) :
    Option QueryExecutionError :=
  match argOutcome env field d with
  | .error e => some e
  | .ok _ => none

/-- The map-building half of one coercion step (the error list plays no
role in the first component). -/
def coerceArgInsert (env : ExecEnv) (field : QField)
    (m : List (String × GValue)) (d : ArgDef) : List (String × GValue) :=
  (coerceArgStep env field (m, []) d).1

theorem assocLookup_hashInsert_self {α : Type} (v : α) :
    ∀ (m : List (String × α)) (k : String),
      assocLookup (hashInsert m k v) k = some v
  | [], k => by simp [hashInsert, assocLookup]
  | p :: rest, k => by
    by_cases h : p.1 == k
    · simp [hashInsert, h, assocLookup]
    · simp only [hashInsert, h, Bool.false_eq_true, if_false]
      simp only [assocLookup, h, Bool.false_eq_true, if_false]
      exact assocLookup_hashInsert_self v rest k

theorem assocLookup_hashInsert_ne {α : Type} (v : α) {k k' : String} (hne : k' ≠ k) :
    ∀ m : List (String × α),
      assocLookup (hashInsert m k v) k' = assocLookup m k'
  | [] => by
    simp [hashInsert, assocLookup,
      show (k == k') = false by simpa using fun hh => hne hh.symm]
  | p :: rest => by
    by_cases h : p.1 == k
    · have hp : p.1 = k := by simpa using h
      simp [hashInsert, h, assocLookup,
        show (k == k') = false by simpa using fun hh => hne hh.symm,
        show (p.1 == k') = false by simpa [hp] using fun hh => hne hh.symm]
    · simp only [hashInsert, h, Bool.false_eq_true, if_false]
      by_cases hk' : p.1 == k'
      · simp [assocLookup, hk']
      · simp only [assocLookup, hk', Bool.false_eq_true, if_false]
        exact assocLookup_hashInsert_ne v hne rest

theorem coerce_foldl_eq (env : ExecEnv) (field : QField) :
    ∀ (defs : List ArgDef) (m0 : List (String × GValue))
      (e0 : List QueryExecutionError),
      defs.foldl (coerceArgStep env field) (m0, e0)
        = (defs.foldl (coerceArgInsert env field) m0,
           e0 ++ defs.filterMap (argErrOf env field))
  | [], m0, e0 => by simp [List.foldl, List.filterMap]
  | d :: rest, m0, e0 => by
    simp only [List.foldl, List.filterMap]
    cases ho : env.coerce_input_value (get_argument_value field.arguments d.name) d with
    | ok o =>
      cases o with
      | some v =>
        rw [coerce_foldl_eq env field rest]
        by_cases ht : d.name == "text" <;>
          simp [coerceArgStep, coerceArgInsert, argErrOf, argOutcome, ho, ht]
      | none =>
        rw [coerce_foldl_eq env field rest]
        simp [coerceArgStep, coerceArgInsert, argErrOf, argOutcome, ho]
    | error e =>
      rw [coerce_foldl_eq env field rest]
      simp [coerceArgStep, coerceArgInsert, argErrOf, argOutcome, ho]

theorem coerceFold_lookup_frame (env : ExecEnv) (field : QField) :
    ∀ (defs : List ArgDef) (m0 : List (String × GValue)) (k : String),
      (∀ d ∈ defs, d.name ≠ k) →
      assocLookup (defs.foldl (coerceArgInsert env field) m0) k = assocLookup m0 k
  | [], _, _, _ => rfl
  | d :: rest, m0, k, h => by
    simp only [List.foldl]
    rw [coerceFold_lookup_frame env field rest _ k
      (fun d' hd' => h d' (List.mem_cons_of_mem d hd'))]
    have hk : k ≠ d.name := fun hh => (h d (by simp)) hh.symm
    cases ho : env.coerce_input_value (get_argument_value field.arguments d.name) d with
    | ok o =>
      cases o with
      | some v =>
        by_cases ht : d.name == "text" <;>
          simp [coerceArgInsert, coerceArgStep, ho, ht,
            assocLookup_hashInsert_ne _ hk]
      | none => simp [coerceArgInsert, coerceArgStep, ho]
    | error e => simp [coerceArgInsert, coerceArgStep, ho]

theorem coerceFold_lookup (env : ExecEnv) (field : QField) :
    ∀ (defs : List ArgDef) (m0 : List (String × GValue)),
      (defs.map ArgDef.name).Nodup →
      (∀ d ∈ defs, assocLookup m0 d.name = none) →
      ∀ d ∈ defs,
        (argOutcome env field d = .ok none →
          assocLookup (defs.foldl (coerceArgInsert env field) m0) d.name = none) ∧
        (∀ v, argOutcome env field d = .ok (some v) →
          assocLookup (defs.foldl (coerceArgInsert env field) m0) d.name =
            some (if d.name = "text" then .object [(field.name, v)] else v))
  | [], _, _, _, d, hd => absurd hd (List.not_mem_nil d)
  | d0 :: rest, m0, hnodup, hm0, d, hd => by
    rcases List.mem_cons.mp hd with rfl | hd'
    · -- the head argument: the rest of the fold does not touch its key
      have hnd : (∀ x ∈ rest, ¬ x.name = d.name) ∧ (rest.map ArgDef.name).Nodup := by
        simpa using hnodup
      have hrest : ∀ d' ∈ rest, d'.name ≠ d.name := fun d' h' => hnd.1 d' h'
      simp only [List.foldl]
      rw [coerceFold_lookup_frame env field rest _ d.name hrest]
      constructor
      · intro ho
        unfold argOutcome at ho
        simp only [coerceArgInsert, coerceArgStep, ho]
        exact hm0 d (by simp)
      · intro v ho
        unfold argOutcome at ho
        simp only [coerceArgInsert, coerceArgStep, ho]
        by_cases ht : d.name = "text"
        · rw [if_pos (by simp [ht]), if_pos ht]
          simpa [ht] using assocLookup_hashInsert_self
            (GValue.object [(field.name, v)]) m0 "text"
        · rw [if_neg (by simpa using ht), if_neg ht]
          exact assocLookup_hashInsert_self v m0 d.name
    · -- an argument further down the list: step the accumulator once
      have hnd : (∀ x ∈ rest, ¬ x.name = d0.name) ∧ (rest.map ArgDef.name).Nodup := by
        simpa using hnodup
      refine coerceFold_lookup env field rest (coerceArgInsert env field m0 d0)
        hnd.2 ?_ d hd'
      intro d' hd'mem
      have hd'0 : d'.name ≠ d0.name := hnd.1 d' hd'mem
      cases ho : env.coerce_input_value (get_argument_value field.arguments d0.name) d0 with
      | ok o =>
        cases o with
        | some v =>
          by_cases ht : d0.name == "text" <;>
            simp [coerceArgInsert, coerceArgStep, ho, ht,
              assocLookup_hashInsert_ne _ hd'0,
              hm0 d' (List.mem_cons_of_mem d0 hd'mem)]
        | none =>
          simpa [coerceArgInsert, coerceArgStep, ho] using
            hm0 d' (List.mem_cons_of_mem d0 hd'mem)
      | error e =>
        simpa [coerceArgInsert, coerceArgStep, ho] using
          hm0 d' (List.mem_cons_of_mem d0 hd'mem)

/-- C9: over the field's declared argument definitions, the call fails iff
at least one argument fails, returning all failing arguments' errors
together in declaration order; on success, an argument that coerced to
absent is not in the result map, and a present argument is bound to its
value — wrapped into a single-key object keyed by the field's own name
when the argument is literally named `text`. -/
theorem coerce_argument_values_spec (env : ExecEnv) (object_type : ObjectType)
    (field : QField) :
    ((∃ errs, coerce_argument_values env object_type field = .error errs) ↔
      ∃ d ∈ (match getFieldDef object_type field.name with
              | some fd => fd.args
              | none => []),
        ∃ e, argOutcome env field d = .error e) ∧
    (∀ errs, coerce_argument_values env object_type field = .error errs →
      errs = (match getFieldDef object_type field.name with
              | some fd => fd.args
              | none => []).filterMap (argErrOf env field)) ∧
    (∀ m, coerce_argument_values env object_type field = .ok m →
      ((match getFieldDef object_type field.name with
        | some fd => fd.args
        | none => []).map ArgDef.name).Nodup →
      ∀ d ∈ (match getFieldDef object_type field.name with
              | some fd => fd.args
              | none => []),
        (argOutcome env field d = .ok none → assocLookup m d.name = none) ∧
        (∀ v, argOutcome env field d = .ok (some v) →
          assocLookup m d.name =
            some (if d.name = "text" then .object [(field.name, v)] else v))) := by
  set defs := (match getFieldDef object_type field.name with
    | some fd => fd.args
    | none => []) with hdefs
  have hfold := coerce_foldl_eq env field defs [] []
  have hres : coerce_argument_values env object_type field =
      (if (defs.filterMap (argErrOf env field)).isEmpty then
        .ok (defs.foldl (coerceArgInsert env field) [])
      else .error (defs.filterMap (argErrOf env field))) := by
    unfold coerce_argument_values
    rw [← hdefs]
    simp only [hfold, List.nil_append]
  refine ⟨?_, ?_, ?_⟩
  · constructor
    · rintro ⟨errs, herrs⟩
      rw [hres] at herrs
      by_cases hemp : (defs.filterMap (argErrOf env field)).isEmpty
      · rw [if_pos hemp] at herrs; cases herrs
      · have : defs.filterMap (argErrOf env field) ≠ [] := by
          simpa [List.isEmpty_iff] using hemp
        rcases List.exists_mem_of_ne_nil _ this with ⟨e, he⟩
        rcases List.mem_filterMap.mp he with ⟨d, hd, hde⟩
        refine ⟨d, hd, e, ?_⟩
        unfold argErrOf at hde
        cases ho : argOutcome env field d <;> rw [ho] at hde
        · cases hde
          rfl
        · simpa using hde
    · rintro ⟨d, hd, e, he⟩
      rw [hres]
      have hne : defs.filterMap (argErrOf env field) ≠ [] := by
        intro hnil
        have := List.filterMap_eq_nil.mp hnil d hd
        rw [argErrOf, he] at this
        cases this
      rw [if_neg (by simpa [List.isEmpty_iff] using hne)]
      exact ⟨_, rfl⟩
  · intro errs herrs
    rw [hres] at herrs
    by_cases hemp : (defs.filterMap (argErrOf env field)).isEmpty
    · rw [if_pos hemp] at herrs; cases herrs
    · rw [if_neg hemp] at herrs
      exact (Except.error.inj herrs).symm
  · intro m hm hnodup d hd
    rw [hres] at hm
    by_cases hemp : (defs.filterMap (argErrOf env field)).isEmpty
    · rw [if_pos hemp] at hm
      have hm' := Except.ok.inj hm
      subst hm'
      exact coerceFold_lookup env field defs [] hnodup (fun _ _ => rfl) d hd
    · rw [if_neg hemp] at hm; cases hm

/-- Object type `A` whose field `f` declares arguments `text`, `absent`,
`plain`. -/
def otA : ObjectType :=
  { name := "A"
    fields := [{ name := "f",
                 args := [⟨"text"⟩, ⟨"absent"⟩, ⟨"plain"⟩],
                 fieldType := .named "S" }]
    implements_interfaces := [] }

/-- Coercion environment: `absent` coerces to absent, everything else to a
present string. -/
def envA : ExecEnv :=
  { envT with
    coerce_input_value := fun _ d =>
      if d.name == "absent" then .ok none else .ok (some (.str "v")) }

/-- Coercion environment where `plain` fails to coerce. -/
def envE : ExecEnv :=
  { envT with
    coerce_input_value := fun _ d =>
      if d.name == "plain" then .error (.argumentError "bad") else .ok none }

/-- The field `f` as queried. -/
def fldA : QField := .mk 0 none "f" [] []

/-- C9 witness: concretely, the `text` argument lands wrapped under the
field's own name, the absent argument is omitted, and a single failing
argument makes the call return exactly its error. -/
theorem coerce_argument_values_spec_witness :
    assocLookup [("text", GValue.object [("f", GValue.str "v")]),
        ("plain", GValue.str "v")] "text"
      = some (GValue.object [("f", GValue.str "v")]) ∧
    assocLookup [("text", GValue.object [("f", GValue.str "v")]),
        ("plain", GValue.str "v")] "absent" = none ∧
    [QueryExecutionError.argumentError "bad"]
      = (match getFieldDef otA fldA.name with
          | some fd => fd.args
          | none => []).filterMap (argErrOf envE fldA) :=
  ⟨((coerce_argument_values_spec envA otA fldA).2.2
      [("text", .object [("f", .str "v")]), ("plain", .str "v")] (by rfl) (by decide)
      ⟨"text"⟩ (by decide)).2 (.str "v") (by rfl),
   ((coerce_argument_values_spec envA otA fldA).2.2
      [("text", .object [("f", .str "v")]), ("plain", .str "v")] (by rfl) (by decide)
      ⟨"absent"⟩ (by decide)).1 (by rfl),
   (coerce_argument_values_spec envE otA fldA).2.1
      [.argumentError "bad"] (by rfl)⟩

/-! ## C5: overall success/failure of a selection-set execution -/

/-- C5: a full selection-set execution is the group loop followed by the
finishing step, and the finishing step errors iff the accumulated error
list is non-empty or no fields were produced; with no errors and an empty
map it returns the single synthesized `EmptySelectionSet` error naming the
object type — never an empty success map. -/
theorem selection_set_error_iff :
    (∀ (fuel : Nat) (env : ExecEnv) (sels : List Selection) (ot : ObjectType)
        (po : Option (List (String × GValue))),
      execute_selection_set_to_map (fuel + 1) env sels ot (Option.map GValue.object po)
        = finishSelectionSet ot.name
            (processGroups env (fun s o p =>
                (execute_selection_set_to_map fuel env s o p).map GValue.object)
              ot (multipleResponseKeys (collect_fields env ot sels none)) po 0 [] []
              (collect_fields env ot sels none)).1
            (processGroups env (fun s o p =>
                (execute_selection_set_to_map fuel env s o p).map GValue.object)
              ot (multipleResponseKeys (collect_fields env ot sels none)) po 0 [] []
              (collect_fields env ot sels none)).2) ∧
    (∀ (tn : String) (errors : List QueryExecutionError) (m : List (String × GValue)),
      ((∃ mm, finishSelectionSet tn errors m = .ok mm) ↔ errors = [] ∧ m ≠ []) ∧
      (errors = [] → m = [] →
        finishSelectionSet tn errors m = .error [.emptySelectionSet tn]) ∧
      (∀ mm, finishSelectionSet tn errors m = .ok mm → mm = m)) := by
  constructor
  · intro fuel env sels ot po
    cases po <;> rfl
  · intro tn errors m
    refine ⟨?_, ?_, ?_⟩
    · constructor
      · rintro ⟨mm, hmm⟩
        unfold finishSelectionSet at hmm
        by_cases hcond : (errors.isEmpty && !m.isEmpty) = true
        · rcases Bool.and_eq_true_iff.mp hcond with ⟨he, hne⟩
          refine ⟨List.isEmpty_iff.mp he, fun h2 => ?_⟩
          rw [h2] at hne
          cases hne
        · rw [if_neg hcond] at hmm
          by_cases he : errors.isEmpty = true
          · rw [if_pos he] at hmm; cases hmm
          · rw [if_neg he] at hmm; cases hmm
      · rintro ⟨he, hne⟩
        unfold finishSelectionSet
        rw [if_pos (by simp [he, List.isEmpty_iff, hne])]
        exact ⟨m, rfl⟩
    · intro he hm
      unfold finishSelectionSet
      subst he hm
      rfl
    · intro mm hmm
      unfold finishSelectionSet at hmm
      by_cases hcond : (errors.isEmpty && !m.isEmpty) = true
      · rw [if_pos hcond] at hmm
        exact (Except.ok.inj hmm).symm
      · rw [if_neg hcond] at hmm
        by_cases he : errors.isEmpty = true
        · rw [if_pos he] at hmm; cases hmm
        · rw [if_neg he] at hmm; cases hmm

/-- C5 witness: a concrete two-field execution equals its finishing step on
the loop output, and a concrete finishing step on no errors and an empty
map synthesizes the `EmptySelectionSet` error. -/
theorem selection_set_error_iff_witness :
    execute_selection_set_to_map (1 + 1) envQ [.field fb, .field fa] otQ
        (Option.map GValue.object (some [("b", GValue.str "vb"), ("a", GValue.str "va")]))
      = finishSelectionSet otQ.name
          (processGroups envQ (fun s o p =>
              (execute_selection_set_to_map 1 envQ s o p).map GValue.object)
            otQ (multipleResponseKeys (collect_fields envQ otQ [.field fb, .field fa] none))
            (some [("b", GValue.str "vb"), ("a", GValue.str "va")]) 0 [] []
            (collect_fields envQ otQ [.field fb, .field fa] none)).1
          (processGroups envQ (fun s o p =>
              (execute_selection_set_to_map 1 envQ s o p).map GValue.object)
            otQ (multipleResponseKeys (collect_fields envQ otQ [.field fb, .field fa] none))
            (some [("b", GValue.str "vb"), ("a", GValue.str "va")]) 0 [] []
            (collect_fields envQ otQ [.field fb, .field fa] none)).2 ∧
    finishSelectionSet "Q" [] [] = .error [.emptySelectionSet "Q"] :=
  ⟨selection_set_error_iff.1 1 envQ [.field fb, .field fa] otQ
      (some [("b", GValue.str "vb"), ("a", GValue.str "va")]),
   (selection_set_error_iff.2 "Q" [] []).2.1 rfl rfl⟩

/-! ## C7: cooperative deadline at group boundaries -/

/-- C7: the deadline is checked at every group boundary; if it first trips
at group `k`, a `Timeout` error is appended to the errors accumulated over
the first `k` groups, the result map of those groups is retained, and the
remaining groups are not executed (the output depends only on the first
`k` groups). -/
theorem deadline_timeout_halts_groups :
    ∀ (env : ExecEnv) (execSS : ExecSS) (ot : ObjectType) (mrk : String → Bool)
      (groups : Groups) (k : Nat) (po : Option (List (String × GValue)))
      (i0 : Nat) (e0 : List QueryExecutionError) (m0 : List (String × GValue)),
      (∀ j, j < k → env.deadlinePast (i0 + j) = false) →
      env.deadlinePast (i0 + k) = true →
      k < groups.length →
      processGroups env execSS ot mrk po i0 e0 m0 groups
        = ((processGroups env execSS ot mrk po i0 e0 m0 (groups.take k)).1
            ++ [.timeout],
           (processGroups env execSS ot mrk po i0 e0 m0 (groups.take k)).2) := by
  intro env execSS ot mrk groups
  induction groups with
  | nil =>
    intro k po i0 e0 m0 _ _ hk
    exact absurd hk (by simp)
  | cons g rest ih =>
    intro k po i0 e0 m0 hbefore hat hk
    obtain ⟨rk, fs⟩ := g
    cases k with
    | zero =>
      have h0 : env.deadlinePast i0 = true := by simpa using hat
      simp [processGroups, h0]
    | succ k =>
      have h0 : env.deadlinePast i0 = false := by
        simpa using hbefore 0 (Nat.succ_pos k)
      simp only [List.take, processGroups, h0, Bool.false_eq_true, if_false]
      exact ih k _ (i0 + 1) _ _
        (fun j hj => by
          have := hbefore (j + 1) (Nat.succ_lt_succ hj)
          simpa [show i0 + (j + 1) = i0 + 1 + j from by omega] using this)
        (by simpa [show i0 + (k + 1) = i0 + 1 + k from by omega] using hat)
        (by simpa using hk)

/-- Environment whose deadline is already past from the second group
boundary on. -/
def envD : ExecEnv := { envQ with deadlinePast := fun i => decide (1 ≤ i) }

/-- C7 witness: with the deadline tripping at the second group boundary,
the two-group loop equals its one-group prefix with a `Timeout` appended
and the prefix's result map retained. -/
theorem deadline_timeout_halts_groups_witness :
    processGroups envD (fun _ _ _ => .ok .null) otQ (fun _ => false)
        (some [("b", GValue.str "vb"), ("a", GValue.str "va")]) 0 [] []
        [("b", [fb]), ("a", [fa])]
      = ((processGroups envD (fun _ _ _ => .ok .null) otQ (fun _ => false)
            (some [("b", GValue.str "vb"), ("a", GValue.str "va")]) 0 [] []
            ([("b", [fb]), ("a", [fa])].take 1)).1 ++ [.timeout],
         (processGroups envD (fun _ _ _ => .ok .null) otQ (fun _ => false)
            (some [("b", GValue.str "vb"), ("a", GValue.str "va")]) 0 [] []
            ([("b", [fb]), ("a", [fa])].take 1)).2) :=
  deadline_timeout_halts_groups envD (fun _ _ _ => .ok .null) otQ (fun _ => false)
    [("b", [fb]), ("a", [fa])] 1
    (some [("b", GValue.str "vb"), ("a", GValue.str "va")]) 0 [] []
    (fun j hj => by
      have : j = 0 := by omega
      subst this
      rfl)
    (by rfl) (by decide)

/-! ## C6: non-null failure and sibling independence -/

/-- C6: completing a non-null wrapper first completes the inner type; an
inner completion to `Null` fails the field with a `NonNullError` carrying
the field's position and name (other outcomes pass through unchanged); and
in the group loop a group failing that way only appends its error — a
succeeding sibling group still contributes its value to the result map. -/
theorem non_null_error_and_sibling_independence :
    (∀ (env : ExecEnv) (execSS : ExecSS) (field : QField) (fields : List QField)
        (inner : GType) (v : GValue),
      (complete_value env execSS field fields inner v = .ok .null →
        complete_value env execSS field fields (.nonNull inner) v
          = .error [.nonNullError field.position field.name]) ∧
      (∀ w, w ≠ .null → complete_value env execSS field fields inner v = .ok w →
        complete_value env execSS field fields (.nonNull inner) v = .ok w) ∧
      (∀ errs, complete_value env execSS field fields inner v = .error errs →
        complete_value env execSS field fields (.nonNull inner) v = .error errs)) ∧
    (∀ (env : ExecEnv) (execSS : ExecSS) (ot : ObjectType) (mrk : String → Bool)
        (i : Nat) (e0 : List QueryExecutionError) (m0 : List (String × GValue))
        (rk1 rk2 : String) (f1 f2 : QField) (fs1 fs2 : List QField)
        (fd1 fd2 : FieldDef) (pos : Nat) (nm : String) (v2 : GValue),
      env.deadlinePast i = false →
      env.deadlinePast (i + 1) = false →
      getFieldDef ot f1.name = some fd1 →
      getFieldDef ot f2.name = some fd2 →
      execute_field env execSS ot none f1 fd1 (f1 :: fs1)
        = .error [.nonNullError pos nm] →
      execute_field env execSS ot none f2 fd2 (f2 :: fs2) = .ok v2 →
      processGroups env execSS ot mrk none i e0 m0
          [(rk1, f1 :: fs1), (rk2, f2 :: fs2)]
        = (e0 ++ [.nonNullError pos nm], btreeInsert rk2 v2 m0)) := by
  constructor
  · intro env execSS field fields inner v
    refine ⟨?_, ?_, ?_⟩
    · intro h
      unfold complete_value
      rw [h]
    · intro w hw h
      unfold complete_value
      rw [h]
      cases w with
      | null => exact absurd rfl hw
      | _ => rfl
    · intro errs h
      unfold complete_value
      rw [h]
  · intro env execSS ot mrk i e0 m0 rk1 rk2 f1 f2 fs1 fs2 fd1 fd2 pos nm v2
      hd0 hd1 hfd1 hfd2 hex1 hex2
    simp only [processGroups, hd0, Bool.false_eq_true, if_false]
    simp only [processGroup, hfd1, extractFieldValue, hex1]
    simp only [processGroups, hd1, Bool.false_eq_true, if_false]
    simp only [processGroup, hfd2, extractFieldValue, hex2]

/-- Object type `N`: a non-null scalar field `n` and a nullable scalar
field `a`. -/
def otN : ObjectType :=
  { name := "N"
    fields := [{ name := "n", args := [], fieldType := .nonNull (.named "S") },
               { name := "a", args := [], fieldType := .named "S" }]
    implements_interfaces := [] }

/-- Environment whose resolver resolves `n` to null and everything else to
a string. -/
def envN : ExecEnv :=
  { envT with
    schema := [("N", .object otN), ("S", .scalar ⟨"S"⟩)]
    resolver :=
      { fixtureResolver with
        resolve_scalar_value := fun _ fld _ _ _ =>
          if fld.name == "n" then .ok .null else .ok (.str "w") } }

/-- The non-null field `n` as queried. -/
def fn : QField := .mk 3 none "n" [] []

/-- C6 witness: the non-null field `n` resolves to null and fails with its
`NonNullError` while the sibling `a` still lands in the result map. -/
theorem non_null_error_and_sibling_independence_witness :
    processGroups envN (fun _ _ _ => .ok .null) otN (fun _ => false) none 0 [] []
        [("n", [fn]), ("a", [fa])]
      = ([] ++ [.nonNullError 3 "n"], btreeInsert "a" (.str "w") []) :=
  non_null_error_and_sibling_independence.2 envN (fun _ _ _ => .ok .null) otN
    (fun _ => false) 0 [] [] "n" "a" fn fa [] []
    { name := "n", args := [], fieldType := .nonNull (.named "S") }
    { name := "a", args := [], fieldType := .named "S" }
    3 "n" (.str "w") (by rfl) (by rfl) (by rfl) (by rfl) (by rfl) (by rfl)

/-! ## C4: ordering of the result map -/

theorem char_eq_of_toNat_eq {a b : Char} (h : a.toNat = b.toNat) : a = b :=
  Char.eq_of_val_eq (UInt32.eq_of_toBitVec_eq (BitVec.eq_of_toNat_eq h))

theorem strLtData_trans : ∀ (a b c : List Char),
    strLtData a b = true → strLtData b c = true → strLtData a c = true
  | a, b, c => by
    induction a generalizing b c with
    | nil =>
      intro hab hbc
      cases b with
      | nil => cases hab
      | cons y ys =>
        cases c with
        | nil => cases hbc
        | cons z zs => rfl
    | cons x xs ih =>
      intro hab hbc
      cases b with
      | nil => cases hab
      | cons y ys =>
        cases c with
        | nil => cases hbc
        | cons z zs =>
          simp only [strLtData] at hab hbc ⊢
          by_cases h1 : x.toNat < y.toNat
          · by_cases h2 : y.toNat < z.toNat
            · rw [if_pos (Nat.lt_trans h1 h2)]
            · rw [if_neg h2] at hbc
              by_cases h3 : z.toNat < y.toNat
              · rw [if_pos h3] at hbc; cases hbc
              · rw [if_pos (show x.toNat < z.toNat by omega)]
          · rw [if_neg h1] at hab
            by_cases h4 : y.toNat < x.toNat
            · rw [if_pos h4] at hab; cases hab
            · rw [if_neg h4] at hab
              by_cases h2 : y.toNat < z.toNat
              · rw [if_pos (show x.toNat < z.toNat by omega)]
              · rw [if_neg h2] at hbc
                by_cases h3 : z.toNat < y.toNat
                · rw [if_pos h3] at hbc; cases hbc
                · rw [if_neg h3] at hbc
                  rw [if_neg (show ¬ x.toNat < z.toNat by omega),
                      if_neg (show ¬ z.toNat < x.toNat by omega)]
                  exact ih ys zs hab hbc

theorem strLtData_lt_of_not_lt : ∀ (a b : List Char),
    strLtData a b = false → a ≠ b → strLtData b a = true
  | a, b => by
    induction a generalizing b with
    | nil =>
      intro hab hne
      cases b with
      | nil => exact absurd rfl hne
      | cons y ys => cases hab
    | cons x xs ih =>
      intro hab hne
      cases b with
      | nil => rfl
      | cons y ys =>
        simp only [strLtData] at hab ⊢
        by_cases h1 : x.toNat < y.toNat
        · rw [if_pos h1] at hab; cases hab
        · rw [if_neg h1] at hab
          by_cases h2 : y.toNat < x.toNat
          · rw [if_pos h2]
          · rw [if_neg h2] at hab
            have hx : x = y := char_eq_of_toNat_eq (by omega)
            subst hx
            rw [if_neg h2, if_neg h1]
            exact ih ys hab (fun hh => hne (congrArg (x :: ·) hh))

theorem strLt_trans {a b c : String} (hab : strLt a b = true)
    (hbc : strLt b c = true) : strLt a c = true :=
  strLtData_trans a.data b.data c.data hab hbc

theorem strLt_of_not_lt {a b : String} (h : strLt a b = false) (hne : a ≠ b) :
    strLt b a = true :=
  strLtData_lt_of_not_lt a.data b.data h
    (fun hd => hne (by cases a; cases b; exact congrArg String.mk hd))

theorem mem_btreeInsert {α : Type} {x : String × α} {k : String} {v : α} :
    ∀ {m : List (String × α)}, x ∈ btreeInsert k v m → x = (k, v) ∨ x ∈ m
  | [], h => by simpa [btreeInsert] using h
  | (k', v') :: rest, h => by
    by_cases h1 : strLt k k'
    · rw [btreeInsert, if_pos h1] at h
      rcases List.mem_cons.mp h with rfl | h2
      · exact Or.inl rfl
      · exact Or.inr h2
    · rw [btreeInsert, if_neg (by simpa using h1)] at h
      by_cases h2 : k == k'
      · rw [if_pos h2] at h
        rcases List.mem_cons.mp h with rfl | h3
        · exact Or.inl rfl
        · exact Or.inr (List.mem_cons_of_mem _ h3)
      · rw [if_neg (by simpa using h2)] at h
        rcases List.mem_cons.mp h with rfl | h3
        · exact Or.inr (List.mem_cons_self _ _)
        · rcases mem_btreeInsert h3 with h4 | h4
          · exact Or.inl h4
          · exact Or.inr (List.mem_cons_of_mem _ h4)

theorem btreeInsert_pairwise {α : Type} (k : String) (v : α) :
    ∀ {m : List (String × α)},
      m.Pairwise (fun p q => strLt p.1 q.1 = true) →
      (btreeInsert k v m).Pairwise (fun p q => strLt p.1 q.1 = true)
  | [], _ => by simp [btreeInsert]
  | (k', v') :: rest, hp => by
    rcases List.pairwise_cons.mp hp with ⟨hhead, hrest⟩
    by_cases h1 : strLt k k'
    · rw [btreeInsert, if_pos h1]
      refine List.pairwise_cons.mpr ⟨?_, hp⟩
      intro x hx
      rcases List.mem_cons.mp hx with rfl | hx'
      · exact h1
      · exact strLt_trans h1 (hhead x hx')
    · rw [btreeInsert, if_neg (by simpa using h1)]
      by_cases h2 : k == k'
      · rw [if_pos h2]
        have hk : k = k' := by simpa using h2
        refine List.pairwise_cons.mpr ⟨?_, hrest⟩
        intro x hx
        exact hk ▸ hhead x hx
      · rw [if_neg (by simpa using h2)]
        refine List.pairwise_cons.mpr ⟨?_, btreeInsert_pairwise k v hrest⟩
        intro x hx
        rcases mem_btreeInsert hx with rfl | hx'
        · exact strLt_of_not_lt (by simpa using h1) (by simpa using h2)
        · exact hhead x hx'

theorem processGroup_map_shape (env : ExecEnv) (execSS : ExecSS)
    (ot : ObjectType) (mrk : String → Bool)
    (po : Option (List (String × GValue))) (e0 : List QueryExecutionError)
    (m0 : List (String × GValue)) (rk : String) (fs : List QField) :
    (processGroup env execSS ot mrk po e0 m0 rk fs).2.2 = m0 ∨
    ∃ v, (processGroup env execSS ot mrk po e0 m0 rk fs).2.2
      = btreeInsert rk v m0 := by
  cases fs with
  | nil => exact Or.inl rfl
  | cons f0 tail =>
    simp only [processGroup]
    split
    · exact Or.inl rfl
    · split
      · exact Or.inr ⟨_, rfl⟩
      · exact Or.inl rfl

theorem processGroups_pairwise (env : ExecEnv) (execSS : ExecSS)
    (ot : ObjectType) (mrk : String → Bool) :
    ∀ (groups : Groups) (po : Option (List (String × GValue))) (i : Nat)
      (e0 : List QueryExecutionError) (m0 : List (String × GValue)),
      m0.Pairwise (fun p q => strLt p.1 q.1 = true) →
      (processGroups env execSS ot mrk po i e0 m0 groups).2.Pairwise
        (fun p q => strLt p.1 q.1 = true)
  | [], _, _, _, _, hp => hp
  | (rk, fs) :: rest, po, i, e0, m0, hp => by
    by_cases hd : env.deadlinePast i
    · simpa [processGroups, hd] using hp
    · simp only [processGroups, hd, Bool.false_eq_true, if_false]
      refine processGroups_pairwise env execSS ot mrk rest _ _ _ _ ?_
      rcases processGroup_map_shape env execSS ot mrk po e0 m0 rk fs with hs | ⟨v, hs⟩
      · rw [hs]; exact hp
      · rw [hs]; exact btreeInsert_pairwise rk v hp

theorem finishSelectionSet_ok_eq {tn : String} {errors : List QueryExecutionError}
    {m mm : List (String × GValue)}
    (h : finishSelectionSet tn errors m = .ok mm) : mm = m := by
  unfold finishSelectionSet at h
  by_cases hcond : (errors.isEmpty && !m.isEmpty) = true
  · rw [if_pos hcond] at h
    exact (Except.ok.inj h).symm
  · rw [if_neg hcond] at h
    by_cases he : errors.isEmpty = true
    · rw [if_pos he] at h; cases h
    · rw [if_neg he] at h; cases h

theorem collectQ_eval :
    collect_fields envQ otQ [.field fb, .field fa] none
      = [("b", [fb]), ("a", [fa])] := by
  simp [collect_fields, collect_fields_go, envQ, envT, otQ, fa, fb, groupsAppend,
    QField.responseKey, QField.fieldAlias, QField.name]

theorem execQ_eval :
    execute_selection_set_to_map 1 envQ [.field fb, .field fa] otQ
        (some (.object [("b", GValue.str "vb"), ("a", GValue.str "va")]))
      = .ok [("a", GValue.str "va"), ("b", GValue.str "vb")] := by
  unfold execute_selection_set_to_map execute_selection_set_to_map_aux
    execute_selection_set_to_map_aux.runGroupLoop
  rw [collectQ_eval]
  rfl

/-- C4 counterexample: a successful execution of the two scalar fields
`b`, `a` (collected in that order) produces the map with keys `a`, `b` —
`BTreeMap` key order, not the collection/insertion order the claim
states. -/
theorem result_map_not_insertion_ordered_cex :
    execute_selection_set_to_map 1 envQ [.field fb, .field fa] otQ
        (some (.object [("b", GValue.str "vb"), ("a", GValue.str "va")]))
      = .ok [("a", GValue.str "va"), ("b", GValue.str "vb")] ∧
    (collect_fields envQ otQ [.field fb, .field fa] none).map Prod.fst
      = ["b", "a"] ∧
    ¬ ((.ok [("a", GValue.str "va"), ("b", GValue.str "vb")] : QueryResponse)
        = .ok [("b", GValue.str "vb"), ("a", GValue.str "va")]) :=
  ⟨execQ_eval, by rw [collectQ_eval]; rfl, fun h => by
    simpa using Except.ok.inj h⟩

/-- C4 amended: every successful result of selection-set execution is a
mapping whose response keys are in strictly ascending lexicographic
(`BTreeMap`) key order — not in field-group collection order. -/
theorem result_map_sorted_by_key :
    ∀ (fuel : Nat) (env : ExecEnv) (sels : List Selection) (ot : ObjectType)
      (pv : Option GValue) (m : List (String × GValue)),
      execute_selection_set_to_map fuel env sels ot pv = .ok m →
      m.Pairwise (fun p q => strLt p.1 q.1 = true) := by
  intro fuel env sels ot pv m h
  cases fuel with
  | zero => cases h
  | succ fuel =>
    unfold execute_selection_set_to_map execute_selection_set_to_map_aux at h
    have hloop : ∀ po, execute_selection_set_to_map_aux.runGroupLoop env
        (fun s o p => (execute_selection_set_to_map fuel env s o p).map GValue.object)
        sels ot po = .ok m →
        m.Pairwise (fun p q => strLt p.1 q.1 = true) := by
      intro po hpo
      unfold execute_selection_set_to_map_aux.runGroupLoop at hpo
      have hm := finishSelectionSet_ok_eq hpo
      subst hm
      exact processGroups_pairwise env _ ot _ _ po 0 [] [] (by simp)
    cases pv with
    | none => exact hloop none h
    | some v =>
      cases v with
      | object o => exact hloop (some o) h
      | null => cases h
      | int n => cases h
      | str s => cases h
      | boolean b => cases h
      | enumValue s => cases h
      | list vs => cases h

/-- C4 witness (amended theorem): the concrete successful execution's map
has its keys in ascending order. -/
theorem result_map_sorted_by_key_witness :
    ([("a", GValue.str "va"), ("b", GValue.str "vb")] : List (String × GValue)).Pairwise
      (fun p q => strLt p.1 q.1 = true) :=
  result_map_sorted_by_key 1 envQ [.field fb, .field fa] otQ
    (some (.object [("b", GValue.str "vb"), ("a", GValue.str "va")]))
    [("a", GValue.str "va"), ("b", GValue.str "vb")] execQ_eval

/-! ## C8: fragment spreads, cycle guard, termination -/

/-- C8: a fragment spread whose name is already in the visited set of the
current branch contributes nothing (the selection is skipped outright); a
spread whose type condition does not apply contributes no fields either
(only the visited set grows); and on the concrete self-spreading fragment
`F` the (total, hence terminating) collector produces its field exactly
once. -/
theorem fragment_cycle_guard :
    (∀ (env : ExecEnv) (ot : ObjectType) (visited : List String)
        (groups : Groups) (name : String) (rest : List Selection),
      visited.contains name = true →
      collect_fields_go env ot visited groups (.fragmentSpread name :: rest)
        = collect_fields_go env ot visited groups rest) ∧
    (∀ (env : ExecEnv) (ot : ObjectType) (visited : List String)
        (groups : Groups) (name : String) (rest : List Selection)
        (frag : FragmentDef),
      env.skipSelection (.fragmentSpread name) = false →
      env.includeSelection (.fragmentSpread name) = true →
      visited.contains name = false →
      assocLookup env.fragments name = some frag →
      does_fragment_type_apply env ot frag.type_condition = false →
      collect_fields_go env ot visited groups (.fragmentSpread name :: rest)
        = collect_fields_go env ot (name :: visited) groups rest) ∧
    (collect_fields envT otT [.fragmentSpread "F"] none
      = [("x", [QField.mk 1 none "x" [] []])]) := by
  refine ⟨?_, ?_, ?_⟩
  · intro env ot visited groups name rest h
    simp only [collect_fields_go]
    by_cases hs : (env.skipSelection (.fragmentSpread name)
        || !env.includeSelection (.fragmentSpread name)) = true
    · rw [if_pos hs]
    · rw [if_neg hs, dif_pos h]
  · intro env ot visited groups name rest frag hskip hinc h hl happ
    simp only [collect_fields_go]
    rw [if_neg (by simp [hskip, hinc]), dif_neg (by rw [h]; exact Bool.false_ne_true), hl]
    simp only [happ, Bool.false_eq_true, if_false]
  · simp [collect_fields, collect_fields_go, envT, fragX, otT, assocLookup,
      does_fragment_type_apply, getNamedType, mergeGroups, groupsAppend,
      QField.responseKey, QField.fieldAlias, QField.name]

/-- C8 witness: the guard applied concretely — spreading `F` again with
`F` already visited leaves the collection unchanged. -/
theorem fragment_cycle_guard_witness :
    collect_fields_go envT otT ["F"] [] [.fragmentSpread "F"]
      = collect_fields_go envT otT ["F"] [] [] :=
  fragment_cycle_guard.1 envT otT ["F"] [] "F" [] (by rfl)

end GraphNode
